import Mathlib

/-
Verification of the codex seed-and-reconciliation pipeline
(directus-extension-codex: seed/index.ts, init/index.ts,
hooks/update-codex-prices.ts, hooks/update-codex-owners.ts).

The TypeScript sources are shallowly embedded as executable Lean
definitions: BigInt arithmetic becomes Nat, JavaScript strings become
String / List Char, fallible platform calls (item store, file store,
network) become environment functions returning Option / Except, and
the event loops become structurally recursive functions (with explicit
fuel where the source loop is not structurally bounded).
-/

/-! ### Shared string and digit utilities -/

/-- Decimal digit to character, as produced by JavaScript number/BigInt
`toString()`. -/
def digitChar : Nat → Char
  | 0 => '0'
  | 1 => '1'
  | 2 => '2'
  | 3 => '3'
  | 4 => '4'
  | 5 => '5'
  | 6 => '6'
  | 7 => '7'
  | 8 => '8'
  | 9 => '9'
  | _ => '*'

/-- Fuel-driven decimal digit expansion (most significant digit first).
The fuel only serves structural termination; `natDigits` supplies enough. -/
def natDigitsAux : Nat → Nat → List Char
  | 0, _ => []
  | fuel + 1, n =>
    if n < 10 then [digitChar n]
    else natDigitsAux fuel (n / 10) ++ [digitChar (n % 10)]

/-- Decimal digit string of a natural number, embedding JavaScript
`BigInt.prototype.toString()` / `Number.prototype.toString()` for
nonnegative integral values. -/
def natDigits (n : Nat) : List Char := natDigitsAux (n + 1) n

/-- String form of `natDigits`. -/
def natStr (n : Nat) : String := String.mk (natDigits n)

/-- Embedding of JavaScript `BigInt(value)` on a nonnegative decimal
digit string. -/
def parseDecimalDigits (s : String) : Nat :=
  s.data.foldl (fun a c => a * 10 + (c.toNat - 48)) 0

/-- Embedding of `String.prototype.padStart(n, c)` on the character list. -/
def padStartL (n : Nat) (c : Char) (l : List Char) : List Char :=
  List.replicate (n - l.length) c ++ l

/-- Is the character the zero digit. -/
def isZero (c : Char) : Bool := decide (c = '0')

/-- Embedding of `.replace(/^0+/, "")`: strip leading zero characters. -/
def stripLeadingZeros (l : List Char) : List Char := l.dropWhile isZero

/-- Embedding of `.replace(/0+$/, "")`: strip trailing zero characters. -/
def stripTrailingZeros (l : List Char) : List Char :=
  (l.reverse.dropWhile isZero).reverse

/-- Embedding of `if (significantDigits.length > 5) substring(0, 5)`. -/
def truncate5 (l : List Char) : List Char :=
  if 5 < l.length then l.take 5 else l

/-! ### Price formatting (hooks/update-codex-prices.ts, `formatPrice`) -/

/-- The fractional digit string displayed by `formatPrice` for remainder
`r` with `d` configured decimals: remainder digits left-padded to `d`
digits, leading zeros stripped, truncated to at most 5 digits, trailing
zeros stripped. -/
def sigDigits (r d : Nat) : List Char :=
  stripTrailingZeros (truncate5 (stripLeadingZeros (padStartL d '0' (natDigits r))))

/-- Core of `formatPrice` after `BigInt(value)` conversion: whole part by
integer division, fractional part by remainder, rendered per the source. -/
def formatPriceNat (value decimals : Nat) (currency : String) : String :=
  let divisor := 10 ^ decimals
  let wholePart := value / divisor
  let fractionalPart := value % divisor
  if fractionalPart = 0 then natStr wholePart ++ " " ++ currency
  else if sigDigits fractionalPart decimals = [] then
    natStr wholePart ++ " " ++ currency
  else
    natStr wholePart ++ "." ++ String.mk (sigDigits fractionalPart decimals)
      ++ " " ++ currency

/-- `formatPrice(value, decimals, currency)` from
hooks/update-codex-prices.ts. -/
def formatPrice (value : String) (decimals : Nat) (currency : String) : String :=
  formatPriceNat (parseDecimalDigits value) decimals currency

/-! ### Digit-string lemmas -/

theorem natDigitsAux_eq_natDigits (n : Nat) :
    ∀ f, n < f → natDigitsAux f n = natDigits n := by
  induction n using Nat.strong_induction_on with
  | _ n ih =>
    intro f hf
    match f, hf with
    | f + 1, _ =>
      show natDigitsAux (f + 1) n = natDigitsAux (n + 1) n
      by_cases h10 : n < 10
      · simp [natDigitsAux, h10]
      · have hdiv : n / 10 < n := Nat.div_lt_self (by omega) (by omega)
        have h1 : natDigitsAux f (n / 10) = natDigits (n / 10) :=
          ih (n / 10) hdiv f (by omega)
        have h2 : natDigitsAux n (n / 10) = natDigits (n / 10) :=
          ih (n / 10) hdiv n (by omega)
        simp [natDigitsAux, h10, h1, h2]

theorem natDigits_eq (n : Nat) :
    natDigits n =
      if n < 10 then [digitChar n]
      else natDigits (n / 10) ++ [digitChar (n % 10)] := by
  show natDigitsAux (n + 1) n = _
  by_cases h10 : n < 10
  · simp [natDigitsAux, h10]
  · have hdiv : n / 10 < n := Nat.div_lt_self (by omega) (by omega)
    have h1 : natDigitsAux n (n / 10) = natDigits (n / 10) :=
      natDigitsAux_eq_natDigits (n / 10) n (by omega)
    simp [natDigitsAux, h10, h1]

theorem natDigits_ne_nil (n : Nat) : natDigits n ≠ [] := by
  rw [natDigits_eq]
  by_cases h10 : n < 10 <;> simp [h10]

theorem natDigits_head_ne_zero :
    ∀ n, 0 < n → ∀ c t, natDigits n = c :: t → c ≠ '0' := by
  intro n
  induction n using Nat.strong_induction_on with
  | _ n ih =>
    intro hn c t hct
    rw [natDigits_eq] at hct
    by_cases h10 : n < 10
    · simp only [if_pos h10] at hct
      cases hct
      interval_cases n <;> decide
    · simp only [if_neg h10] at hct
      obtain ⟨c2, t2, h2⟩ := List.exists_cons_of_ne_nil (natDigits_ne_nil (n / 10))
      rw [h2] at hct
      simp only [List.cons_append, List.cons.injEq] at hct
      obtain ⟨hcc, _⟩ := hct
      exact fun h =>
        ih (n / 10) (Nat.div_lt_self (by omega) (by omega)) (by omega) c2 t2 h2
          (hcc.trans h)

theorem dropWhile_isZero_replicate_append (k : Nat) (l : List Char) :
    (List.replicate k '0' ++ l).dropWhile isZero = l.dropWhile isZero := by
  induction k with
  | zero => simp
  | succ k ih => simp [List.replicate_succ, List.dropWhile_cons, isZero, ih]

theorem dropWhile_isZero_natDigits (r : Nat) (hr : 0 < r) :
    (natDigits r).dropWhile isZero = natDigits r := by
  obtain ⟨c, t, hct⟩ := List.exists_cons_of_ne_nil (natDigits_ne_nil r)
  have hc : c ≠ '0' := natDigits_head_ne_zero r hr c t hct
  rw [hct, List.dropWhile_cons]
  simp [isZero, hc]

theorem stripLeadingZeros_pad (r d : Nat) (hr : 0 < r) :
    stripLeadingZeros (padStartL d '0' (natDigits r)) = natDigits r := by
  unfold stripLeadingZeros padStartL
  rw [dropWhile_isZero_replicate_append, dropWhile_isZero_natDigits r hr]

theorem dropWhile_eq_nil_all {p : Char → Bool} :
    ∀ l : List Char, l.dropWhile p = [] → ∀ c ∈ l, p c = true := by
  intro l
  induction l with
  | nil => simp
  | cons a t ih =>
    intro h c hc
    rw [List.dropWhile_cons] at h
    by_cases hp : p a
    · rcases List.mem_cons.mp hc with rfl | hc
      · exact hp
      · exact ih (by simpa [hp] using h) c hc
    · simp [hp] at h

theorem stripTrailingZeros_ne_nil_of_mem {c : Char} {l : List Char}
    (hmem : c ∈ l) (hc : c ≠ '0') : stripTrailingZeros l ≠ [] := by
  intro h
  unfold stripTrailingZeros at h
  rw [List.reverse_eq_nil_iff] at h
  have := dropWhile_eq_nil_all l.reverse h c (by simpa using hmem)
  simp [isZero, hc] at this

theorem truncate5_cons_mem (c : Char) (t : List Char) :
    c ∈ truncate5 (c :: t) := by
  unfold truncate5
  split
  · exact List.mem_cons_self c (t.take 4)
  · exact List.mem_cons_self c t

theorem sigDigits_of_lt (r d : Nat) (hr : 0 < r) :
    sigDigits r d = stripTrailingZeros (truncate5 (natDigits r)) := by
  unfold sigDigits
  rw [stripLeadingZeros_pad r d hr]

theorem sigDigits_ne_nil (r d : Nat) (hr : 0 < r) : sigDigits r d ≠ [] := by
  rw [sigDigits_of_lt r d hr]
  obtain ⟨c, t, hct⟩ := List.exists_cons_of_ne_nil (natDigits_ne_nil r)
  have hc : c ≠ '0' := natDigits_head_ne_zero r hr c t hct
  rw [hct]
  exact stripTrailingZeros_ne_nil_of_mem (truncate5_cons_mem c t) hc

theorem formatPriceNat_decomp (w r d : Nat) (c : String) (hr : 0 < r)
    (hlt : r < 10 ^ d) :
    formatPriceNat (w * 10 ^ d + r) d c =
      natStr w ++ "." ++ String.mk (stripTrailingZeros (truncate5 (natDigits r)))
        ++ " " ++ c := by
  have hpos : 0 < 10 ^ d := Nat.pos_pow_of_pos d (by omega)
  have hfrac : (w * 10 ^ d + r) % 10 ^ d = r := by
    rw [Nat.mul_comm w (10 ^ d), Nat.mul_add_mod, Nat.mod_eq_of_lt hlt]
  have hwhole : (w * 10 ^ d + r) / 10 ^ d = w := by
    rw [Nat.mul_comm w (10 ^ d), Nat.mul_add_div hpos, Nat.div_eq_of_lt hlt]
    omega
  unfold formatPriceNat
  simp only [hfrac, hwhole]
  rw [if_neg (by omega), if_neg (sigDigits_ne_nil r d hr),
    sigDigits_of_lt r d hr]

/-- Claim C2: formatPrice converts an exact fixed-point integer string into
a truncated decimal string: formatPrice("1337200000000000000", 18, "ETH") =
"1.3372 ETH"; formatPrice("2000000000000000000", 18, "ETH") = "2 ETH"; and
whenever the fractional digit string, after left-padding to `decimals`
digits and stripping leading zeros, is longer than 5 digits, the output
keeps exactly the first 5 of those digits, strips trailing zeros, and is
followed by one space and the currency code. -/
theorem C2_formatPrice_truncation :
    formatPrice "1337200000000000000" 18 "ETH" = "1.3372 ETH" ∧
    formatPrice "2000000000000000000" 18 "ETH" = "2 ETH" ∧
    ∀ v d c,
      5 < (stripLeadingZeros (padStartL d '0' (natDigits (v % 10 ^ d)))).length →
      formatPriceNat v d c =
        natStr (v / 10 ^ d) ++ "." ++
          String.mk (stripTrailingZeros
            ((stripLeadingZeros (padStartL d '0' (natDigits (v % 10 ^ d)))).take 5))
          ++ " " ++ c := by
  refine ⟨by decide, by decide, ?_⟩
  intro v d c hlen
  have hpos : 0 < 10 ^ d := Nat.pos_pow_of_pos d (by omega)
  have hr : 0 < v % 10 ^ d := by
    by_contra h
    have h0 : v % 10 ^ d = 0 := by omega
    rw [h0] at hlen
    have hnd : natDigits 0 = ['0'] := by decide
    have : stripLeadingZeros (padStartL d '0' (natDigits 0)) = [] := by
      unfold stripLeadingZeros padStartL
      rw [hnd, dropWhile_isZero_replicate_append]
      decide
    rw [this] at hlen
    simp at hlen
  have hlt : v % 10 ^ d < 10 ^ d := Nat.mod_lt v hpos
  have hstrip := stripLeadingZeros_pad (v % 10 ^ d) d hr
  rw [hstrip] at hlen ⊢
  have hv : v = (v / 10 ^ d) * 10 ^ d + v % 10 ^ d := by
    rw [Nat.mul_comm]
    exact (Nat.div_add_mod v (10 ^ d)).symm
  calc formatPriceNat v d c
      = formatPriceNat ((v / 10 ^ d) * 10 ^ d + v % 10 ^ d) d c := by rw [← hv]
    _ = _ := by
        rw [formatPriceNat_decomp (v / 10 ^ d) (v % 10 ^ d) d c hr hlt]
        have : truncate5 (natDigits (v % 10 ^ d)) = (natDigits (v % 10 ^ d)).take 5 := by
          unfold truncate5
          rw [if_pos hlen]
        rw [this]

/-- Witness for C2's quantified clause at value 1337200000000000000,
decimals 18, currency ETH. -/
theorem C2_formatPrice_truncation_witness :
    5 < (stripLeadingZeros (padStartL 18 '0'
        (natDigits (1337200000000000000 % 10 ^ 18)))).length ∧
    formatPriceNat 1337200000000000000 18 "ETH" =
      natStr (1337200000000000000 / 10 ^ 18) ++ "." ++
        String.mk (stripTrailingZeros
          ((stripLeadingZeros (padStartL 18 '0'
            (natDigits (1337200000000000000 % 10 ^ 18)))).take 5))
        ++ " " ++ "ETH" :=
  ⟨by decide, C2_formatPrice_truncation.2.2 1337200000000000000 18 "ETH" (by decide)⟩

/-- Claim C9 (implicit): formatPrice drops the leading zeros of the
fractional remainder before selecting the displayed digits, so it is not
injective and misrenders fractional parts smaller than 0.1:
formatPrice("1050000000000000000", 18, "ETH") = "1.5 ETH" — the same
string as for 1500000000000000000, not "1.05 ETH" — and in general the
rendered fractional digits of a nonzero remainder depend only on the
remainder's own digit string, not on how many padding zeros the
`decimals` width would prescribe. -/
theorem C9_formatPrice_strips_padding :
    formatPrice "1050000000000000000" 18 "ETH" = "1.5 ETH" ∧
    formatPrice "1050000000000000000" 18 "ETH"
      = formatPrice "1500000000000000000" 18 "ETH" ∧
    formatPrice "1050000000000000000" 18 "ETH" ≠ "1.05 ETH" ∧
    ∀ w r d d2 c, 0 < r → r < 10 ^ d → r < 10 ^ d2 →
      formatPriceNat (w * 10 ^ d + r) d c = formatPriceNat (w * 10 ^ d2 + r) d2 c := by
  refine ⟨by decide, by decide, by decide, ?_⟩
  intro w r d d2 c hr h1 h2
  rw [formatPriceNat_decomp w r d c hr h1, formatPriceNat_decomp w r d2 c hr h2]

/-- Witness for C9's quantified clause: remainder 5 * 10 ^ 16 rendered
with 18 and with 17 configured decimals. -/
theorem C9_formatPrice_strips_padding_witness :
    0 < 50000000000000000 ∧ 50000000000000000 < 10 ^ 18 ∧
    50000000000000000 < 10 ^ 17 ∧
    formatPriceNat (1 * 10 ^ 18 + 50000000000000000) 18 "ETH" =
      formatPriceNat (1 * 10 ^ 17 + 50000000000000000) 17 "ETH" :=
  ⟨by decide, by decide, by decide,
    C9_formatPrice_strips_padding.2.2.2 1 50000000000000000 18 17 "ETH"
      (by decide) (by decide) (by decide)⟩

/-! ### Lowest-price dedupe (hooks/update-codex-prices.ts,
`getLowestPricesByTokenId`) -/

/-- The `price` block of an adoption listing: fixed-point integer `value`
as a decimal string, currency code, configured decimals. -/
structure AdoptionPriceValue where
  value : String
  currency : String
  decimals : Nat
deriving DecidableEq

/-- One adoption listing record `{ tokenId, price }`. -/
structure AdoptionPrice where
  tokenId : String
  price : AdoptionPriceValue
deriving DecidableEq

/-- `Map.prototype.get` on the insertion-ordered association list that
embeds the JavaScript `Map<string, AdoptionPrice>`. -/
def lookupA : List (String × AdoptionPrice) → String → Option AdoptionPrice
  | [], _ => none
  | (k, v) :: rest, k2 => if k = k2 then some v else lookupA rest k2

/-- `Map.prototype.set`: replace in place when the key exists, append
otherwise. -/
def setA : List (String × AdoptionPrice) → String → AdoptionPrice →
    List (String × AdoptionPrice)
  | [], k, v => [(k, v)]
  | (k1, v1) :: rest, k, v =>
    if k1 = k then (k, v) :: rest else (k1, v1) :: setA rest k v


/-- The loop body of `getLowestPricesByTokenId`: keep the first record per
tokenId, replace it whenever a strictly lower `BigInt(price.value)` shows
up. -/
def lowestStep (m : List (String × AdoptionPrice)) (detail : AdoptionPrice) :
    List (String × AdoptionPrice) :=
  match lookupA m detail.tokenId with
  | none => setA m detail.tokenId detail
  | some existing =>
    if parseDecimalDigits detail.price.value
        < parseDecimalDigits existing.price.value then
      setA m detail.tokenId detail
    else m

/-- `getLowestPricesByTokenId(adoptionDetails)` from
hooks/update-codex-prices.ts: the for-loop is a left fold of `lowestStep`
over the listings, starting from the empty map. -/
def getLowestPricesByTokenId (adoptionDetails : List AdoptionPrice) :
    List (String × AdoptionPrice) :=
  adoptionDetails.foldl lowestStep []

/-- Specification-side fold describing what the map holds at one key. -/
def minStep (k : String) (acc : Option AdoptionPrice) (d : AdoptionPrice) :
    Option AdoptionPrice :=
  if d.tokenId = k then
    match acc with
    | none => some d
    | some e =>
      if parseDecimalDigits d.price.value < parseDecimalDigits e.price.value then
        some d
      else some e
  else acc

/-- Keys of the embedded map. -/
def keysOf (m : List (String × AdoptionPrice)) : List String := m.map Prod.fst

theorem lookupA_setA (m : List (String × AdoptionPrice)) (k : String)
    (v : AdoptionPrice) (k2 : String) :
    lookupA (setA m k v) k2 = if k = k2 then some v else lookupA m k2 := by
  induction m with
  | nil => simp [setA, lookupA]
  | cons p rest ih =>
    obtain ⟨k1, v1⟩ := p
    by_cases h1 : k1 = k
    · subst h1
      by_cases h2 : k1 = k2 <;> simp [setA, lookupA, h2]
    · by_cases h2 : k1 = k2
      · subst h2
        have hk : ¬(k = k1) := fun h => h1 h.symm
        simp [setA, lookupA, h1, hk]
      · simp [setA, lookupA, h1, h2, ih]

theorem lookupA_lowestStep (m : List (String × AdoptionPrice))
    (d : AdoptionPrice) (k : String) :
    lookupA (lowestStep m d) k = minStep k (lookupA m k) d := by
  by_cases hdk : d.tokenId = k
  · subst hdk
    cases hm : lookupA m d.tokenId with
    | none => simp [lowestStep, minStep, hm, lookupA_setA]
    | some existing =>
      by_cases hlt : parseDecimalDigits d.price.value
          < parseDecimalDigits existing.price.value
      · simp [lowestStep, minStep, hm, hlt, lookupA_setA]
      · simp [lowestStep, minStep, hm, hlt]
  · cases hm : lookupA m d.tokenId with
    | none => simp [lowestStep, minStep, hm, hdk, lookupA_setA]
    | some existing =>
      by_cases hlt : parseDecimalDigits d.price.value
          < parseDecimalDigits existing.price.value
      · simp [lowestStep, minStep, hm, hdk, hlt, lookupA_setA]
      · simp [lowestStep, minStep, hm, hdk, hlt]

theorem lookupA_foldl_lowestStep (l : List AdoptionPrice) :
    ∀ m k, lookupA (l.foldl lowestStep m) k = l.foldl (minStep k) (lookupA m k) := by
  induction l with
  | nil => intro m k; simp
  | cons d rest ih =>
    intro m k
    rw [List.foldl_cons, List.foldl_cons, ih, lookupA_lowestStep]

theorem foldl_minStep_none (l : List AdoptionPrice) :
    ∀ acc k, l.foldl (minStep k) acc = none →
      acc = none ∧ ∀ r ∈ l, r.tokenId ≠ k := by
  induction l with
  | nil => simp
  | cons d rest ih =>
    intro acc k h
    rw [List.foldl_cons] at h
    obtain ⟨hmin, hrest⟩ := ih (minStep k acc d) k h
    unfold minStep at hmin
    by_cases hdk : d.tokenId = k
    · rw [if_pos hdk] at hmin
      cases hacc : acc with
      | none => rw [hacc] at hmin; simp at hmin
      | some e =>
        rw [hacc] at hmin
        by_cases hlt : parseDecimalDigits d.price.value
            < parseDecimalDigits e.price.value
        · simp [hlt] at hmin
        · simp [hlt] at hmin
    · rw [if_neg hdk] at hmin
      refine ⟨hmin, ?_⟩
      intro r hr
      rcases List.mem_cons.mp hr with rfl | hr
      · exact hdk
      · exact hrest r hr

theorem foldl_minStep_some (l : List AdoptionPrice) :
    ∀ acc k rec, l.foldl (minStep k) acc = some rec →
      (acc = some rec ∨ (rec ∈ l ∧ rec.tokenId = k)) ∧
      (∀ r ∈ l, r.tokenId = k →
        parseDecimalDigits rec.price.value ≤ parseDecimalDigits r.price.value) ∧
      (∀ e, acc = some e →
        parseDecimalDigits rec.price.value ≤ parseDecimalDigits e.price.value) := by
  induction l with
  | nil =>
    intro acc k rec h
    simp only [List.foldl_nil] at h
    refine ⟨Or.inl h, by simp, fun e he => ?_⟩
    rw [h] at he
    cases he
    exact Nat.le_refl _
  | cons d rest ih =>
    intro acc k rec h
    rw [List.foldl_cons] at h
    obtain ⟨hA, hB, hC⟩ := ih (minStep k acc d) k rec h
    by_cases hdk : d.tokenId = k
    · cases hacc : acc with
      | none =>
        have hm : minStep k acc d = some d := by simp [minStep, hdk, hacc]
        refine ⟨?_, ?_, ?_⟩
        · rcases hA with h1 | h1
          · rw [hm] at h1
            cases h1
            exact Or.inr ⟨List.mem_cons_self d rest, hdk⟩
          · exact Or.inr ⟨List.mem_cons_of_mem d h1.1, h1.2⟩
        · intro r hr hrk
          rcases List.mem_cons.mp hr with rfl | hr2
          · exact hC r hm
          · exact hB r hr2 hrk
        · intro e he
          cases he
      | some e0 =>
        by_cases hlt : parseDecimalDigits d.price.value
            < parseDecimalDigits e0.price.value
        · have hm : minStep k acc d = some d := by simp [minStep, hdk, hacc, hlt]
          refine ⟨?_, ?_, ?_⟩
          · rcases hA with h1 | h1
            · rw [hm] at h1
              cases h1
              exact Or.inr ⟨List.mem_cons_self d rest, hdk⟩
            · exact Or.inr ⟨List.mem_cons_of_mem d h1.1, h1.2⟩
          · intro r hr hrk
            rcases List.mem_cons.mp hr with rfl | hr2
            · exact hC r hm
            · exact hB r hr2 hrk
          · intro e he
            cases he
            have := hC d hm
            omega
        · have hm : minStep k acc d = some e0 := by simp [minStep, hdk, hacc, hlt]
          refine ⟨?_, ?_, ?_⟩
          · rcases hA with h1 | h1
            · rw [hm] at h1
              cases h1
              exact Or.inl rfl
            · exact Or.inr ⟨List.mem_cons_of_mem d h1.1, h1.2⟩
          · intro r hr hrk
            rcases List.mem_cons.mp hr with rfl | hr2
            · have h1 := hC e0 hm
              omega
            · exact hB r hr2 hrk
          · intro e he
            cases he
            exact hC e0 hm
    · have hm : minStep k acc d = acc := by simp [minStep, hdk]
      rw [hm] at hA hC
      refine ⟨?_, ?_, hC⟩
      · rcases hA with h1 | h1
        · exact Or.inl h1
        · exact Or.inr ⟨List.mem_cons_of_mem d h1.1, h1.2⟩
      · intro r hr hrk
        rcases List.mem_cons.mp hr with rfl | hr2
        · exact absurd hrk hdk
        · exact hB r hr2 hrk

theorem keysOf_cons (p : String × AdoptionPrice)
    (m : List (String × AdoptionPrice)) : keysOf (p :: m) = p.1 :: keysOf m := rfl

theorem mem_keys_setA (m : List (String × AdoptionPrice)) (k : String)
    (v : AdoptionPrice) :
    ∀ a, a ∈ keysOf (setA m k v) → a = k ∨ a ∈ keysOf m := by
  induction m with
  | nil =>
    intro a ha
    simp [setA, keysOf] at ha
    exact Or.inl ha
  | cons p rest ih =>
    obtain ⟨k1, v1⟩ := p
    intro a ha
    by_cases h1 : k1 = k
    · subst h1
      simp only [setA, if_pos rfl, keysOf_cons] at ha
      rcases List.mem_cons.mp ha with rfl | ha
      · exact Or.inl rfl
      · exact Or.inr (by rw [keysOf_cons]; exact List.mem_cons_of_mem _ ha)
    · simp only [setA, if_neg h1, keysOf_cons] at ha
      rcases List.mem_cons.mp ha with rfl | ha
      · exact Or.inr (by rw [keysOf_cons]; exact List.mem_cons_self _ _)
      · rcases ih a ha with h | h
        · exact Or.inl h
        · exact Or.inr (by rw [keysOf_cons]; exact List.mem_cons_of_mem _ h)

theorem nodup_keys_setA (m : List (String × AdoptionPrice)) (k : String)
    (v : AdoptionPrice) (h : (keysOf m).Nodup) : (keysOf (setA m k v)).Nodup := by
  induction m with
  | nil => simp [setA, keysOf]
  | cons p rest ih =>
    obtain ⟨k1, v1⟩ := p
    rw [keysOf_cons, List.nodup_cons] at h
    obtain ⟨hnotin, hrest⟩ := h
    by_cases h1 : k1 = k
    · subst h1
      have hs : setA ((k1, v1) :: rest) k1 v = (k1, v) :: rest := by
        simp [setA]
      rw [hs, keysOf_cons, List.nodup_cons]
      exact ⟨hnotin, hrest⟩
    · simp only [setA, if_neg h1, keysOf_cons, List.nodup_cons]
      refine ⟨?_, ih hrest⟩
      intro hk1
      rcases mem_keys_setA rest k v k1 hk1 with rfl | hmem
      · exact h1 rfl
      · exact hnotin hmem

theorem nodup_keys_lowestStep (m : List (String × AdoptionPrice))
    (d : AdoptionPrice) (h : (keysOf m).Nodup) :
    (keysOf (lowestStep m d)).Nodup := by
  unfold lowestStep
  cases lookupA m d.tokenId with
  | none => exact nodup_keys_setA m d.tokenId d h
  | some existing =>
    show (keysOf (if parseDecimalDigits d.price.value
        < parseDecimalDigits existing.price.value then
      setA m d.tokenId d else m)).Nodup
    split
    · exact nodup_keys_setA m d.tokenId d h
    · exact h

theorem nodup_keys_foldl (l : List AdoptionPrice) :
    ∀ m, (keysOf m).Nodup → (keysOf (l.foldl lowestStep m)).Nodup := by
  induction l with
  | nil => intro m h; simpa using h
  | cons d rest ih =>
    intro m h
    rw [List.foldl_cons]
    exact ih (lowestStep m d) (nodup_keys_lowestStep m d h)

/-- Claim C5: for every input list of adoption listings,
getLowestPricesByTokenId returns a map with exactly one record per
distinct tokenId — its keys are duplicate-free and a key is present
exactly when some listing carries it — and the record kept for a key is a
listing with that tokenId whose price value is minimal under exact
arbitrary-precision integer comparison; in particular, of the two token-5
listings with values 2000000000000000000 and 1500000000000000000 only the
1500000000000000000 record is kept. -/
theorem C5_lowest_price_dedupe :
    getLowestPricesByTokenId
        [⟨"5", ⟨"2000000000000000000", "ETH", 18⟩⟩,
         ⟨"5", ⟨"1500000000000000000", "ETH", 18⟩⟩] =
      [("5", ⟨"5", ⟨"1500000000000000000", "ETH", 18⟩⟩)] ∧
    (∀ l, (keysOf (getLowestPricesByTokenId l)).Nodup) ∧
    (∀ l k, (∃ r ∈ l, r.tokenId = k) →
      lookupA (getLowestPricesByTokenId l) k ≠ none) ∧
    (∀ l k rec, lookupA (getLowestPricesByTokenId l) k = some rec →
      rec ∈ l ∧ rec.tokenId = k ∧
      ∀ r ∈ l, r.tokenId = k →
        parseDecimalDigits rec.price.value ≤ parseDecimalDigits r.price.value) := by
  have hnil : ∀ k, lookupA [] k = none := fun _ => rfl
  refine ⟨by decide, ?_, ?_, ?_⟩
  · intro l
    exact nodup_keys_foldl l [] (by simp [keysOf])
  · rintro l k ⟨r, hr, hrk⟩ h
    rw [getLowestPricesByTokenId, lookupA_foldl_lowestStep, hnil] at h
    exact foldl_minStep_none l none k h |>.2 r hr hrk
  · intro l k rec h
    rw [getLowestPricesByTokenId, lookupA_foldl_lowestStep, hnil] at h
    obtain ⟨hA, hB, _⟩ := foldl_minStep_some l none k rec h
    rcases hA with h1 | h1
    · cases h1
    · exact ⟨h1.1, h1.2, hB⟩

/-- Demonstration listings for the C5 witness: two listings for token 7
(values 30 and 12) and one for token 8. -/
def demoListings : List AdoptionPrice :=
  [⟨"7", ⟨"30", "ETH", 18⟩⟩, ⟨"7", ⟨"12", "ETH", 18⟩⟩, ⟨"8", ⟨"5", "ETH", 18⟩⟩]

/-- Witness for C5's quantified clauses at the demonstration listings. -/
theorem C5_lowest_price_dedupe_witness :
    lookupA (getLowestPricesByTokenId demoListings) "7" ≠ none ∧
    ((⟨"7", ⟨"12", "ETH", 18⟩⟩ : AdoptionPrice) ∈ demoListings ∧
      (⟨"7", ⟨"12", "ETH", 18⟩⟩ : AdoptionPrice).tokenId = "7" ∧
      ∀ r ∈ demoListings, r.tokenId = "7" →
        parseDecimalDigits (⟨"7", ⟨"12", "ETH", 18⟩⟩ : AdoptionPrice).price.value
          ≤ parseDecimalDigits r.price.value) :=
  ⟨C5_lowest_price_dedupe.2.2.1 demoListings "7" (by decide),
   C5_lowest_price_dedupe.2.2.2 demoListings "7" ⟨"7", ⟨"12", "ETH", 18⟩⟩ (by decide)⟩

/-! ### Retrying fetcher (seed/index.ts, `fetchFromIPFS`) -/

/-- A fetched HTTP response: success flag and numeric status, the two
properties `fetchFromIPFS` inspects. -/
structure FetchResponse where
  ok : Bool
  status : Nat
deriving DecidableEq

/-- Outcome of one `fetch` attempt: a settled response, or a
synchronously propagated rejection (timeouts surface as a raised
AbortError and land here too). -/
inductive FetchOutcome where
  | resp (r : FetchResponse)
  | raised
deriving DecidableEq

/-- An attempt that does not succeed: it raised, or its response has
`ok = false`. -/
def attemptFails : FetchOutcome → Bool
  | .resp r => !r.ok
  | .raised => true

/-- The retry loop of `fetchFromIPFS`. `o i` is the outcome of attempt
number `i`; `remaining` is structural fuel equal to
`maxRetries + 1 - attempt` at every call, so the `attempt ≤ maxRetries`
loop condition of the source is `remaining > 0`. The second component
records the backoff delays (ms) slept between attempts, `1000 * attempt`
as in the source. Falling out of the loop returns null. -/
def fetchGo (o : Nat → FetchOutcome) (maxRetries : Nat) :
    Nat → Nat → Option FetchResponse × List Nat
  | _, 0 => (none, [])
  | attempt, remaining + 1 =>
    match o attempt with
    | .resp r =>
      if r.ok then (some r, [])
      else if attempt < maxRetries then
        let rest := fetchGo o maxRetries (attempt + 1) remaining
        (rest.1, 1000 * attempt :: rest.2)
      else (some r, [])
    | .raised =>
      if attempt < maxRetries then
        let rest := fetchGo o maxRetries (attempt + 1) remaining
        (rest.1, 1000 * attempt :: rest.2)
      else (none, [])

/-- `fetchFromIPFS(url, timeoutMs, maxRetries)` from seed/index.ts,
abstracted over the per-attempt outcomes `o`. -/
def fetchFromIPFS (o : Nat → FetchOutcome) (maxRetries : Nat) :
    Option FetchResponse × List Nat :=
  fetchGo o maxRetries 1 maxRetries

/-- Result of the terminal attempt, as `fetchFromIPFS` reports it. -/
def lastAttemptResult (x : FetchOutcome) : Option FetchResponse :=
  match x with
  | .resp r => some r
  | .raised => none

theorem fetchGo_all_fail (o : Nat → FetchOutcome) (n : Nat) :
    ∀ rem a, 1 ≤ a → a ≤ n → rem = n + 1 - a →
      (∀ i, a ≤ i → i ≤ n → attemptFails (o i) = true) →
      fetchGo o n a rem =
        (lastAttemptResult (o n),
         (List.range' a (n - a)).map (fun i => 1000 * i)) := by
  intro rem
  induction rem with
  | zero => intro a h1 h2 h3 _; omega
  | succ rem ih =>
    intro a h1 h2 h3 hfail
    have hfa := hfail a (Nat.le_refl a) h2
    by_cases han : a < n
    · have hrec := ih (a + 1) (by omega) (by omega) (by omega)
        (fun i hi1 hi2 => hfail i (by omega) hi2)
      have hrange : List.range' a (n - a) =
          a :: List.range' (a + 1) (n - (a + 1)) := by
        have hna : n - a = (n - (a + 1)) + 1 := by omega
        rw [hna, List.range'_succ]
      cases ho : o a with
      | resp r =>
        have hok : r.ok = false := by simpa [attemptFails, ho] using hfa
        simp [fetchGo, ho, hok, han, hrec, hrange]
      | raised =>
        simp [fetchGo, ho, han, hrec, hrange]
    · have ha : a = n := by omega
      subst ha
      cases ho : o a with
      | resp r =>
        have hok : r.ok = false := by simpa [attemptFails, ho] using hfa
        simp [fetchGo, ho, hok, lastAttemptResult]
      | raised =>
        simp [fetchGo, ho, lastAttemptResult]

theorem fetchGo_ok (o : Nat → FetchOutcome) (n k : Nat) (r : FetchResponse) :
    ∀ rem a, 1 ≤ a → a ≤ k → k ≤ n → rem = n + 1 - a →
      (∀ i, a ≤ i → i < k → attemptFails (o i) = true) →
      o k = .resp r → r.ok = true →
      fetchGo o n a rem =
        (some r, (List.range' a (k - a)).map (fun i => 1000 * i)) := by
  intro rem
  induction rem with
  | zero => intro a h1 h2 h3 h4 _ _ _; omega
  | succ rem ih =>
    intro a h1 h2 h3 h4 hfail hk hok
    by_cases hak : a = k
    · subst hak
      simp [fetchGo, hk, hok]
    · have haltk : a < k := by omega
      have hfa := hfail a (Nat.le_refl a) haltk
      have hrec := ih (a + 1) (by omega) (by omega) h3 (by omega)
        (fun i hi1 hi2 => hfail i (by omega) hi2) hk hok
      have hrange : List.range' a (k - a) =
          a :: List.range' (a + 1) (k - (a + 1)) := by
        have hka : k - a = (k - (a + 1)) + 1 := by omega
        rw [hka, List.range'_succ]
      cases ho : o a with
      | resp r0 =>
        have hok0 : r0.ok = false := by simpa [attemptFails, ho] using hfa
        simp [fetchGo, ho, hok0, show a < n by omega, hrec, hrange]
      | raised =>
        simp [fetchGo, ho, show a < n by omega, hrec, hrange]

/-- Claim C4, corrected: fetchFromIPFS retries a failed attempt (raise,
timeout, or non-OK HTTP response) up to maxRetries total attempts with
delay 1000ms * attemptNumber between attempts; an OK response at attempt
k is returned immediately after exactly the k-1 backoff delays; when
every attempt fails, the result is determined by the FINAL attempt alone:
the last (possibly non-OK) response object if the final attempt yielded a
response, and null if the final attempt raised — even when an earlier
attempt yielded a (non-OK) response. (The original claim's "only when
every attempt raises does the function return null" is refuted by
`C4_fetch_retry_counterexample`.) -/
theorem C4_fetch_retry :
    (∀ o n k r, 1 ≤ k → k ≤ n →
      (∀ i, 1 ≤ i → i < k → attemptFails (o i) = true) →
      o k = .resp r → r.ok = true →
      fetchFromIPFS o n =
        (some r, (List.range' 1 (k - 1)).map (fun i => 1000 * i))) ∧
    (∀ o n, 1 ≤ n →
      (∀ i, 1 ≤ i → i ≤ n → attemptFails (o i) = true) →
      fetchFromIPFS o n =
        (lastAttemptResult (o n),
         (List.range' 1 (n - 1)).map (fun i => 1000 * i))) := by
  constructor
  · intro o n k r hk1 hkn hfail hok hkr
    have h := fetchGo_ok o n k r n 1 (by omega) hk1 hkn (by omega)
      (fun i hi1 hi2 => hfail i hi1 hi2) hok hkr
    rw [fetchFromIPFS, h]
  · intro o n hn hfail
    have h := fetchGo_all_fail o n n 1 (by omega) hn (by omega)
      (fun i hi1 hi2 => hfail i hi1 hi2)
    rw [fetchFromIPFS, h]

/-- Attempt outcomes where attempt 2 returns a non-OK response and every
other attempt raises. -/
def cFetchAllFail : Nat → FetchOutcome := fun i =>
  if i = 2 then .resp ⟨false, 404⟩ else .raised

/-- Attempt outcomes where attempt 2 returns an OK response and every
other attempt raises. -/
def cFetchOkAt2 : Nat → FetchOutcome := fun i =>
  if i = 2 then .resp ⟨true, 200⟩ else .raised

/-- Witness for C4: with three failing attempts the final raise yields
null after the two linear backoff delays; with an OK response at attempt
2 the response is returned immediately after one delay. -/
theorem C4_fetch_retry_witness :
    fetchFromIPFS cFetchAllFail 3 = (none, [1000, 2000]) ∧
    fetchFromIPFS cFetchOkAt2 3 = (some ⟨true, 200⟩, [1000]) := by
  constructor
  · have h := C4_fetch_retry.2 cFetchAllFail 3 (by omega)
      (fun i h1 h2 => by interval_cases i <;> decide)
    rw [h]
    decide
  · have h := C4_fetch_retry.1 cFetchOkAt2 3 2 ⟨true, 200⟩ (by omega) (by omega)
      (fun i h1 h2 => by interval_cases i <;> decide) (by decide) (by decide)
    rw [h]
    decide

/-- Attempt outcomes where attempt 1 yields a non-OK response and attempt
2 raises. -/
def cFetchMixed : Nat → FetchOutcome := fun i =>
  if i = 1 then .resp ⟨false, 500⟩ else .raised

/-- Counterexample to claim C4 as stated: with maxRetries = 2, attempt 1
yields a (non-OK) response object and attempt 2 raises; the function
returns null, although not every attempt raised synchronously and the
last response object (status 500) is not returned. -/
theorem C4_fetch_retry_counterexample :
    fetchFromIPFS cFetchMixed 2 = (none, [1000]) ∧
    cFetchMixed 1 = .resp ⟨false, 500⟩ :=
  ⟨by decide, by decide⟩

/-! ### Source document generator (init/index.ts, `generateSeedData`) -/

/-- `String(j).padStart(5, "0")`: the zero-padded 5-digit token computed
for index `j`. -/
def tokenOf (j : Nat) : String := String.mk (padStartL 5 '0' (natDigits j))

/-- The deterministic source filename `Art_DeCC0_<token>.codex.json`. -/
def sourceFileName (j : Nat) : String :=
  "Art_DeCC0_" ++ tokenOf j ++ ".codex.json"

/-- The deterministic local output path
`join(seedDir, codex-<token>.json)`. -/
def outputPathOf (seedDir : String) (j : Nat) : String :=
  seedDir ++ "/" ++ "codex-" ++ tokenOf j ++ ".json"

/-- A fetched and parsed source document; `id` is the `data.id` field
used for the sync id (0 models a missing/falsy id). -/
structure GenDoc where
  id : Nat
deriving DecidableEq

/-- Environment of a generator run: which output paths already exist on
disk, and what a GET of a source URL produces (`none` models an HTTP
non-success or parse failure, caught per item). -/
structure GenEnv where
  fileExists : String → Bool
  fetchJson : String → Option GenDoc

/-- What `generateSeedData` did for one index. -/
inductive GenAction where
  | skipped
  | created (syncId : String)
  | failed
deriving DecidableEq

/-- Record of one index of the generator loop: the names it computed,
the action taken, and whether a network request was issued. -/
structure GenResult where
  token : String
  fileName : String
  outputPath : String
  action : GenAction
  networkCalled : Bool
deriving DecidableEq

/-- One index of the `generateSeedData` batch loop (init/index.ts): skip
when the output path already exists (no network call), otherwise GET the
source document once (plain fetch, no retry) and wrap it in the seed
envelope whose `_sync_id` is `codex-<data.id>`, or `codex-<j>` when the
document carries no id. -/
def genStep (env : GenEnv) (gateway hash seedDir : String) (j : Nat) :
    GenResult :=
  let fileNum := tokenOf j
  let fileName := sourceFileName j
  let seedFilePath := outputPathOf seedDir j
  if env.fileExists seedFilePath then
    { token := fileNum, fileName := fileName, outputPath := seedFilePath,
      action := .skipped, networkCalled := false }
  else
    let fileUrl := gateway ++ "/ipfs/" ++ hash ++ "/" ++ fileName
    match env.fetchJson fileUrl with
    | none =>
      { token := fileNum, fileName := fileName, outputPath := seedFilePath,
        action := .failed, networkCalled := true }
    | some data =>
      let syncId :=
        if data.id ≠ 0 then "codex-" ++ natStr data.id
        else "codex-" ++ natStr j
      { token := fileNum, fileName := fileName, outputPath := seedFilePath,
        action := .created syncId, networkCalled := true }

theorem natDigits_length_le (k : Nat) :
    ∀ n, n < 10 ^ k → 1 ≤ k → (natDigits n).length ≤ k := by
  induction k with
  | zero => intro n _ h; omega
  | succ k ih =>
    intro n hn _
    rw [natDigits_eq]
    by_cases h10 : n < 10
    · simp [h10]
    · rw [if_neg h10]
      have hdiv : n / 10 < 10 ^ k := by
        rw [Nat.div_lt_iff_lt_mul (by omega)]
        rw [Nat.pow_succ] at hn
        exact hn
      have hk1 : 1 ≤ k := by
        by_contra hc
        have : k = 0 := by omega
        subst this
        simp at hdiv
        omega
      have := ih (n / 10) hdiv hk1
      simp [List.length_append]
      omega

theorem tokenOf_length (j : Nat) (h : j ≤ 10000) : (tokenOf j).length = 5 := by
  have hlt : j < 10 ^ 5 := by omega
  have hle := natDigits_length_le 5 j hlt (by omega)
  show (padStartL 5 '0' (natDigits j)).length = 5
  unfold padStartL
  rw [List.length_append, List.length_replicate]
  omega

theorem genStep_token (env : GenEnv) (gateway hash seedDir : String) (j : Nat) :
    (genStep env gateway hash seedDir j).token = tokenOf j := by
  simp only [genStep]
  split
  · rfl
  · split <;> rfl

theorem genStep_fileName (env : GenEnv) (gateway hash seedDir : String) (j : Nat) :
    (genStep env gateway hash seedDir j).fileName = sourceFileName j := by
  simp only [genStep]
  split
  · rfl
  · split <;> rfl

theorem genStep_outputPath (env : GenEnv) (gateway hash seedDir : String) (j : Nat) :
    (genStep env gateway hash seedDir j).outputPath = outputPathOf seedDir j := by
  simp only [genStep]
  split
  · rfl
  · split <;> rfl

/-- Claim C8: for every index in 1..10000 the generator computes the same
zero-padded 5-digit token, the same source filename
`Art_DeCC0_<token>.codex.json` and the same local output path
`codex-<token>.json` on every run (they are functions of the index and
seed directory alone, identical across any two environments); and for
every index whose output path already exists, the index is counted as
skipped and no network fetch is performed for it. -/
theorem C8_generator_determinism (env env2 : GenEnv)
    (gateway hash gateway2 hash2 seedDir : String) (j : Nat)
    (h1 : 1 ≤ j) (h2 : j ≤ 10000) :
    ((genStep env gateway hash seedDir j).token
        = (genStep env2 gateway2 hash2 seedDir j).token ∧
      (genStep env gateway hash seedDir j).fileName
        = (genStep env2 gateway2 hash2 seedDir j).fileName ∧
      (genStep env gateway hash seedDir j).outputPath
        = (genStep env2 gateway2 hash2 seedDir j).outputPath ∧
      (genStep env gateway hash seedDir j).token = tokenOf j ∧
      (genStep env gateway hash seedDir j).fileName
        = "Art_DeCC0_" ++ tokenOf j ++ ".codex.json" ∧
      (genStep env gateway hash seedDir j).outputPath
        = seedDir ++ "/" ++ "codex-" ++ tokenOf j ++ ".json") ∧
    (tokenOf j).length = 5 ∧
    (env.fileExists (outputPathOf seedDir j) = true →
      (genStep env gateway hash seedDir j).action = .skipped ∧
      (genStep env gateway hash seedDir j).networkCalled = false) := by
  refine ⟨⟨?_, ?_, ?_, genStep_token env gateway hash seedDir j,
    genStep_fileName env gateway hash seedDir j,
    genStep_outputPath env gateway hash seedDir j⟩,
    tokenOf_length j h2, ?_⟩
  · rw [genStep_token, genStep_token]
  · rw [genStep_fileName, genStep_fileName]
  · rw [genStep_outputPath, genStep_outputPath]
  · intro hex
    constructor <;> simp [genStep, hex]

/-- Generator environment where every output path already exists. -/
def cGenEnvA : GenEnv := ⟨fun _ => true, fun _ => none⟩

/-- Generator environment with empty disk and a fixed fetched document. -/
def cGenEnvB : GenEnv := ⟨fun _ => false, fun _ => some ⟨42⟩⟩

/-- Witness for C8 at index 7 with two different environments. -/
theorem C8_generator_determinism_witness :
    (genStep cGenEnvA "http://gw" "Qm" "/seed" 7).action = .skipped ∧
    (genStep cGenEnvA "http://gw" "Qm" "/seed" 7).networkCalled = false ∧
    (tokenOf 7).length = 5 ∧
    (genStep cGenEnvA "http://gw" "Qm" "/seed" 7).token
      = (genStep cGenEnvB "http://gw2" "Qm2" "/seed" 7).token := by
  have h := C8_generator_determinism cGenEnvA cGenEnvB "http://gw" "Qm"
    "http://gw2" "Qm2" "/seed" 7 (by omega) (by omega)
  exact ⟨(h.2.2 (by decide)).1, (h.2.2 (by decide)).2, h.2.1, h.1.1⟩

/-! ### Owner reconciliation job (hooks/update-codex-owners.ts) -/

/-- One token returned by the blockchain index query. -/
structure GraphToken where
  id : String
  tokenId : String
  owner : String
deriving DecidableEq

/-- `Number.parseInt(s, 10)` restricted to the shapes this job meets:
value of the longest leading run of decimal digits, `none` when there is
none (NaN). -/
def parseIntJS (s : String) : Option Nat :=
  let ds := s.data.takeWhile (fun c => c.isDigit)
  if ds = [] then none
  else some (ds.foldl (fun a c => a * 10 + (c.toNat - 48)) 0)

/-- Does `pat` occur as a contiguous run inside `l`. -/
def listContains (pat : List Char) : List Char → Bool
  | [] => pat.isPrefixOf []
  | c :: rest => pat.isPrefixOf (c :: rest) || listContains pat rest

/-- `String.prototype.includes`. -/
def strIncludes (s pat : String) : Bool := listContains pat.data s.data

/-- The catch classification of a failed owner update: a message that
includes "owner", "column" or "field" means the schema lacks the column,
and the whole job stops early. -/
def ownerFieldMissingMsg (msg : String) : Bool :=
  strIncludes msg "owner" || strIncludes msg "column" || strIncludes msg "field"

/-- The item store as the owner job sees it: by numeric id, `none` when
no codex item exists, otherwise the stored `owner` field (itself `none`
when null). -/
abbrev OwnerStore := Nat → Option (Option String)

/-- Counters reported by the owner job. -/
structure OwnersCounters where
  updated : Nat
  errors : Nat
deriving DecidableEq

/-- Environment of one owner job run: the outcome of the n-th page
request (error = fetch/GraphQL failure), and the outcome of
`updateOne(id, {owner})` (`none` = success, `some msg` = raises with
that message). -/
structure OwnersEnv where
  pages : Nat → Except Unit (List GraphToken)
  updateResult : Nat → String → Option String

/-- `tokens.length > 0 ? parseInt(tokens[tokens.length-1]?.tokenId || "0") :
lastTokenId`: the cursor for the next page. -/
def newCursorOf (tokens : List GraphToken) (fallback : Option Nat) : Option Nat :=
  match tokens.getLast? with
  | none => fallback
  | some t => parseIntJS (if t.tokenId = "" then "0" else t.tokenId)

/-- The per-page token loop: parse each tokenId (NaN counts an error and
continues), look the item up by id (absent ⇒ skip), update the owner only
when changed; a failed update whose message marks the owner column as
missing sets hasMore = false and breaks (third component `true`), any
other failure counts an error and continues. -/
def processTokens (env : OwnersEnv) :
    OwnerStore → OwnersCounters → List GraphToken →
      OwnerStore × OwnersCounters × Bool
  | store, cnt, [] => (store, cnt, false)
  | store, cnt, t :: rest =>
    match parseIntJS t.tokenId with
    | none => processTokens env store { cnt with errors := cnt.errors + 1 } rest
    | some tid =>
      match store tid with
      | none => processTokens env store cnt rest
      | some storedOwner =>
        if storedOwner ≠ some t.owner then
          match env.updateResult tid t.owner with
          | none =>
            processTokens env
              (fun k => if k = tid then some (some t.owner) else store k)
              { cnt with updated := cnt.updated + 1 } rest
          | some msg =>
            if ownerFieldMissingMsg msg then (store, cnt, true)
            else processTokens env store { cnt with errors := cnt.errors + 1 } rest
        else processTokens env store cnt rest

/-- The `while (hasMore)` paging loop. Each iteration issues one page
request (its cursor is recorded in the returned trace, `none` modelling a
NaN cursor): a fetch error counts an error, waits, skips the cursor ahead
by 1000 and continues; an empty page breaks; after processing, an
owner-column early stop or a page of fewer than 1000 tokens ends the
loop, otherwise the cursor advances to the parsed last tokenId. `fuel`
bounds the iterations (the source loop has no such bound and can spin on
persistent fetch errors). -/
def ownersLoop (env : OwnersEnv) :
    Nat → Nat → Option Nat → OwnerStore → OwnersCounters →
      List (Option Nat) × OwnersCounters
  | 0, _, _, _, cnt => ([], cnt)
  | fuel + 1, reqIdx, cursor, store, cnt =>
    match env.pages reqIdx with
    | .error _ =>
      let res := ownersLoop env fuel (reqIdx + 1) (cursor.map (· + 1000))
        store { cnt with errors := cnt.errors + 1 }
      (cursor :: res.1, res.2)
    | .ok tokens =>
      if tokens.length = 0 then ([cursor], cnt)
      else
        let p := processTokens env store cnt tokens
        if p.2.2 then ([cursor], p.2.1)
        else if tokens.length < 1000 then ([cursor], p.2.1)
        else
          let res := ownersLoop env fuel (reqIdx + 1) (newCursorOf tokens cursor)
            p.1 p.2.1
          (cursor :: res.1, res.2)

/-- `updateCodexOwners` paging phase: start with cursor 0 at request 0. -/
def updateCodexOwners (env : OwnersEnv) (store0 : OwnerStore) (fuel : Nat) :
    List (Option Nat) × OwnersCounters :=
  ownersLoop env fuel 0 (some 0) store0 ⟨0, 0⟩

theorem processTokens_no_earlyStop (env : OwnersEnv)
    (hAll : ∀ id ow msg, env.updateResult id ow = some msg →
      ownerFieldMissingMsg msg = false) :
    ∀ toks store cnt, (processTokens env store cnt toks).2.2 = false := by
  intro toks
  induction toks with
  | nil => intro store cnt; rfl
  | cons t rest ih =>
    intro store cnt
    cases hp : parseIntJS t.tokenId with
    | none => simp [processTokens, hp, ih]
    | some tid =>
      cases hs : store tid with
      | none => simp [processTokens, hp, hs, ih]
      | some so =>
        by_cases ho : so ≠ some t.owner
        · cases hu : env.updateResult tid t.owner with
          | none => simp [processTokens, hp, hs, ho, hu, ih]
          | some msg =>
            have hmsg := hAll tid t.owner msg hu
            simp [processTokens, hp, hs, ho, hu, hmsg, ih]
        · simp [processTokens, hp, hs, ho, ih]

theorem ownersLoop_head (env : OwnersEnv) (fuel reqIdx : Nat)
    (cursor : Option Nat) (store : OwnerStore) (cnt : OwnersCounters)
    (h : 1 ≤ fuel) :
    (ownersLoop env fuel reqIdx cursor store cnt).1[0]? = some cursor := by
  match fuel, h with
  | f + 1, _ =>
    cases hpage : env.pages reqIdx with
    | error e => simp [ownersLoop, hpage]
    | ok tokens =>
      by_cases h0 : tokens.length = 0
      · simp [ownersLoop, hpage, h0]
      · by_cases he : (processTokens env store cnt tokens).2.2
        · simp [ownersLoop, hpage, h0, he]
        · by_cases hl : tokens.length < 1000
          · simp [ownersLoop, hpage, h0, he, hl]
          · simp [ownersLoop, hpage, h0, he, hl]

theorem ownersLoop_ne_nil (env : OwnersEnv) (fuel reqIdx : Nat)
    (cursor : Option Nat) (store : OwnerStore) (cnt : OwnersCounters)
    (h : 1 ≤ fuel) :
    (ownersLoop env fuel reqIdx cursor store cnt).1 ≠ [] := by
  intro hemp
  have hh := ownersLoop_head env fuel reqIdx cursor store cnt h
  rw [hemp] at hh
  simp at hh

theorem ownersLoop_small_page (env : OwnersEnv) (toks : List GraphToken)
    (hlen : toks.length < 1000) :
    ∀ fuel reqIdx cursor store cnt j,
      env.pages (reqIdx + j) = .ok toks →
      j < (ownersLoop env fuel reqIdx cursor store cnt).1.length →
      (ownersLoop env fuel reqIdx cursor store cnt).1.length = j + 1 := by
  intro fuel
  induction fuel with
  | zero =>
    intro reqIdx cursor store cnt j _ hj
    simp [ownersLoop] at hj
  | succ f ih =>
    intro reqIdx cursor store cnt j hp hj
    cases hpage : env.pages reqIdx with
    | error e =>
      cases j with
      | zero => rw [Nat.add_zero, hpage] at hp; cases hp
      | succ j2 =>
        have hp2 : env.pages ((reqIdx + 1) + j2) = .ok toks := by
          rw [show reqIdx + 1 + j2 = reqIdx + (j2 + 1) by omega]
          exact hp
        simp only [ownersLoop, hpage] at hj ⊢
        rw [List.length_cons] at hj ⊢
        have := ih (reqIdx + 1) (cursor.map (· + 1000)) store
          { cnt with errors := cnt.errors + 1 } j2 hp2 (by omega)
        omega
    | ok tokens =>
      by_cases h0 : tokens.length = 0
      · simp only [ownersLoop, hpage, h0, if_pos rfl] at hj ⊢
        simp at hj ⊢
        omega
      · by_cases he : (processTokens env store cnt tokens).2.2
        · simp only [ownersLoop, hpage, h0, he] at hj ⊢
          simp [h0, he] at hj ⊢
          omega
        · by_cases hl : tokens.length < 1000
          · simp only [ownersLoop, hpage] at hj ⊢
            simp [h0, he, hl] at hj ⊢
            omega
          · cases j with
            | zero =>
              rw [Nat.add_zero, hpage] at hp
              cases hp
              omega
            | succ j2 =>
              have hp2 : env.pages ((reqIdx + 1) + j2) = .ok toks := by
                rw [show reqIdx + 1 + j2 = reqIdx + (j2 + 1) by omega]
                exact hp
              simp only [ownersLoop, hpage] at hj ⊢
              simp only [h0, he, hl] at hj ⊢
              simp at hj ⊢
              have := ih (reqIdx + 1) (newCursorOf tokens cursor)
                (processTokens env store cnt tokens).1
                (processTokens env store cnt tokens).2.1 j2 hp2 (by omega)
              omega

theorem newCursorOf_fallback_irrel (tokens : List GraphToken)
    (hne : tokens ≠ []) (c1 c2 : Option Nat) :
    newCursorOf tokens c1 = newCursorOf tokens c2 := by
  unfold newCursorOf
  cases hlast : tokens.getLast? with
  | none => exact absurd (List.getLast?_eq_none_iff.mp hlast) hne
  | some t => rfl

theorem ownersLoop_full_page (env : OwnersEnv)
    (hAll : ∀ id ow msg, env.updateResult id ow = some msg →
      ownerFieldMissingMsg msg = false)
    (toks : List GraphToken) (hlen : 1000 ≤ toks.length) :
    ∀ fuel reqIdx cursor store cnt j,
      env.pages (reqIdx + j) = .ok toks →
      j < (ownersLoop env fuel reqIdx cursor store cnt).1.length →
      j + 1 < fuel →
      j + 1 < (ownersLoop env fuel reqIdx cursor store cnt).1.length ∧
      (ownersLoop env fuel reqIdx cursor store cnt).1[j + 1]?
        = some (newCursorOf toks none) := by
  intro fuel
  induction fuel with
  | zero => intro _ _ _ _ j _ _ hf; omega
  | succ f ih =>
    intro reqIdx cursor store cnt j hp hj hf
    cases hpage : env.pages reqIdx with
    | error e =>
      cases j with
      | zero => rw [Nat.add_zero, hpage] at hp; cases hp
      | succ j2 =>
        have hp2 : env.pages ((reqIdx + 1) + j2) = .ok toks := by
          rw [show reqIdx + 1 + j2 = reqIdx + (j2 + 1) by omega]
          exact hp
        simp only [ownersLoop, hpage] at hj ⊢
        simp at hj ⊢
        obtain ⟨ha, hb⟩ := ih (reqIdx + 1) (cursor.map (· + 1000)) store
          { cnt with errors := cnt.errors + 1 } j2 hp2 (by omega) (by omega)
        exact ⟨by omega, hb⟩
    | ok tokens =>
      have hEarly := processTokens_no_earlyStop env hAll tokens store cnt
      by_cases h0 : tokens.length = 0
      · cases j with
        | zero =>
          rw [Nat.add_zero, hpage] at hp
          cases hp
          omega
        | succ j2 =>
          simp only [ownersLoop, hpage, h0, if_pos rfl] at hj
          simp at hj
      · by_cases hl : tokens.length < 1000
        · cases j with
          | zero =>
            rw [Nat.add_zero, hpage] at hp
            cases hp
            omega
          | succ j2 =>
            simp only [ownersLoop, hpage] at hj
            simp [h0, hEarly, hl] at hj
        · cases j with
          | zero =>
            rw [Nat.add_zero, hpage] at hp
            cases hp
            simp only [ownersLoop, hpage]
            simp only [h0, hEarly, hl]
            simp
            have hfpos : 1 ≤ f := by omega
            have hhead := ownersLoop_head env f (reqIdx + 1)
              (newCursorOf toks cursor)
              (processTokens env store cnt toks).1
              (processTokens env store cnt toks).2.1 hfpos
            have hnnil := ownersLoop_ne_nil env f (reqIdx + 1)
              (newCursorOf toks cursor)
              (processTokens env store cnt toks).1
              (processTokens env store cnt toks).2.1 hfpos
            have hlenpos : 0 <
                (ownersLoop env f (reqIdx + 1) (newCursorOf toks cursor)
                  (processTokens env store cnt toks).1
                  (processTokens env store cnt toks).2.1).1.length :=
              List.length_pos.mpr hnnil
            refine ⟨by omega, ?_⟩
            rw [hhead]
            have hne : toks ≠ [] := by
              intro hemp
              rw [hemp] at h0
              simp at h0
            rw [newCursorOf_fallback_irrel toks hne cursor none]
          | succ j2 =>
            have hp2 : env.pages ((reqIdx + 1) + j2) = .ok toks := by
              rw [show reqIdx + 1 + j2 = reqIdx + (j2 + 1) by omega]
              exact hp
            simp only [ownersLoop, hpage] at hj ⊢
            simp only [h0, hEarly, hl] at hj ⊢
            simp at hj ⊢
            obtain ⟨ha, hb⟩ := ih (reqIdx + 1) (newCursorOf tokens cursor)
              (processTokens env store cnt tokens).1
              (processTokens env store cnt tokens).2.1 j2 hp2 (by omega)
              (by omega)
            exact ⟨by omega, hb⟩

/-- Claim C6, corrected: in the Owner Reconciliation Job's paging loop,
whenever a successfully fetched page contains fewer than 1000 tokens
(including zero), the loop ends without issuing a further page request;
a page of 1000 or more tokens advances the cursor to the integer-parsed
last returned tokenId and (fuel permitting) issues another page request,
provided no owner update failed with an owner-column-missing message
while processing that page — such a failure stops the whole job even
after a full page (see `C6_owner_pagination_counterexample`). The
provision is expressed exactly: any failed update may occur as long as
its message is not classified owner-column-missing (a benign failure is
counted as an error and pagination continues). -/
theorem C6_owner_pagination :
    (∀ env store0 fuel j toks,
      env.pages j = .ok toks → toks.length < 1000 →
      j < (updateCodexOwners env store0 fuel).1.length →
      (updateCodexOwners env store0 fuel).1.length = j + 1) ∧
    (∀ env store0 fuel j toks,
      (∀ id ow msg, env.updateResult id ow = some msg →
        ownerFieldMissingMsg msg = false) →
      env.pages j = .ok toks → 1000 ≤ toks.length →
      j < (updateCodexOwners env store0 fuel).1.length →
      j + 1 < fuel →
      j + 1 < (updateCodexOwners env store0 fuel).1.length ∧
      (updateCodexOwners env store0 fuel).1[j + 1]?
        = some (newCursorOf toks none)) := by
  constructor
  · intro env store0 fuel j toks hp hlen hj
    exact ownersLoop_small_page env toks hlen fuel 0 (some 0) store0 ⟨0, 0⟩ j
      (by rw [Nat.zero_add]; exact hp) hj
  · intro env store0 fuel j toks hAll hp hlen hj hf
    exact ownersLoop_full_page env hAll toks hlen fuel 0 (some 0) store0 ⟨0, 0⟩ j
      (by rw [Nat.zero_add]; exact hp) hj hf

/-- An item store with no codex items at all. -/
def cStoreNone : OwnerStore := fun _ => none

/-- A two-token page (fewer than 1000). -/
def cSmallPage : List GraphToken := [⟨"1", "1", "0xa"⟩, ⟨"2", "2", "0xb"⟩]

/-- Environment returning the small page on every request, updates
always succeeding. -/
def cOwnersEnvSmall : OwnersEnv := ⟨fun _ => .ok cSmallPage, fun _ _ => none⟩

/-- A full page of 1000 tokens with ids 1..1000, all owned by 0xnew. -/
def cFullPage : List GraphToken :=
  (List.range 1000).map (fun i => ⟨natStr (i + 1), natStr (i + 1), "0xnew"⟩)

/-- Environment returning the full page first and an empty page
afterwards, updates always succeeding. -/
def cOwnersEnvFull : OwnersEnv :=
  ⟨fun r => if r = 0 then .ok cFullPage else .ok [], fun _ _ => none⟩

/-- An item store holding item 1 with owner 0xold. -/
def cOwnedStore : OwnerStore := fun k => if k = 1 then some (some "0xold") else none

/-- Environment returning the full page first and an empty page
afterwards, where every update fails with a benign message (no
owner/column/field token). -/
def cOwnersEnvBenign : OwnersEnv :=
  ⟨fun r => if r = 0 then .ok cFullPage else .ok [], fun _ _ => some "boom"⟩

set_option maxRecDepth 100000 in
/-- Witness for C6: a first page of 2 tokens ends the loop after one
request; a full first page of 1000 tokens leads to a second request
whose cursor is the parsed last tokenId (1000), both when every update
succeeds and when an update fails with a benign (non-owner-column)
message. -/
theorem C6_owner_pagination_witness :
    (updateCodexOwners cOwnersEnvSmall cStoreNone 5).1.length = 1 ∧
    1 < (updateCodexOwners cOwnersEnvFull cStoreNone 5).1.length ∧
    (updateCodexOwners cOwnersEnvFull cStoreNone 5).1[1]? = some (some 1000) ∧
    (updateCodexOwners cOwnersEnvBenign cOwnedStore 5).1[1]? = some (some 1000) := by
  refine ⟨C6_owner_pagination.1 cOwnersEnvSmall cStoreNone 5 0 cSmallPage rfl
      (by decide) (by decide), ?_, ?_, ?_⟩
  · exact (C6_owner_pagination.2 cOwnersEnvFull cStoreNone 5 0 cFullPage
      (fun _ _ _ h => by cases h) rfl (by decide) (by decide) (by omega)).1
  · have h := (C6_owner_pagination.2 cOwnersEnvFull cStoreNone 5 0 cFullPage
      (fun _ _ _ h => by cases h) rfl (by decide) (by decide) (by omega)).2
    rw [h]
    decide
  · have h := (C6_owner_pagination.2 cOwnersEnvBenign cOwnedStore 5 0 cFullPage
      (fun _ _ msg h => by cases h; decide) rfl (by decide) (by decide)
      (by omega)).2
    rw [h]
    decide

/-- Environment returning the full page, where every update raises with
an owner-column-missing message. -/
def cOwnersEnvStop : OwnersEnv :=
  ⟨fun r => if r = 0 then .ok cFullPage else .ok [],
   fun _ _ => some "owner column missing"⟩

set_option maxRecDepth 100000 in
/-- Counterexample to claim C6 as stated: the first fetched page has
1000 tokens (not fewer than 1000) and ample fuel remains, yet only one
page request is ever issued, because the first owner update failed with
an owner-column-missing message and stopped the job. -/
theorem C6_owner_pagination_counterexample :
    cOwnersEnvStop.pages 0 = .ok cFullPage ∧
    1000 ≤ cFullPage.length ∧
    (updateCodexOwners cOwnersEnvStop cOwnedStore 5).1.length = 1 :=
  ⟨rfl, by decide, by decide⟩

/-! ### Seed loader (seed/index.ts): timestamps, assets, upsert loop -/

/-- Replace the first occurrence of `pat` in the list by `repl`
(`String.prototype.replace` with a string pattern). -/
def replaceFirstL (pat repl : List Char) : List Char → List Char
  | [] => []
  | c :: rest =>
    if pat.isPrefixOf (c :: rest) then repl ++ (c :: rest).drop pat.length
    else c :: replaceFirstL pat repl rest

/-- `timestamp_created.replace(" EDT", "").replace(" ", "T")`. -/
def normalizeTs (s : String) : String :=
  String.mk (replaceFirstL " ".data "T".data (replaceFirstL " EDT".data [] s.data))

/-- A parsed calendar date-time. -/
structure JsDateTime where
  year : Nat
  month : Nat
  day : Nat
  hour : Nat
  minute : Nat
  second : Nat
deriving DecidableEq

/-- Gregorian leap year. -/
def isLeapYear (y : Nat) : Bool :=
  decide ((y % 4 = 0 ∧ y % 100 ≠ 0) ∨ y % 400 = 0)

/-- Days in a month (months numbered 1-12). -/
def daysInMonth (y m : Nat) : Nat :=
  if m = 1 ∨ m = 3 ∨ m = 5 ∨ m = 7 ∨ m = 8 ∨ m = 10 ∨ m = 12 then 31
  else if m = 4 ∨ m = 6 ∨ m = 9 ∨ m = 11 then 30
  else if m = 2 then (if isLeapYear y then 29 else 28)
  else 0

/-- Two decimal digit characters to a number. -/
def digits2 (a b : Char) : Option Nat :=
  if a.isDigit ∧ b.isDigit then some ((a.toNat - 48) * 10 + (b.toNat - 48))
  else none

/-- Four decimal digit characters to a number. -/
def digits4 (a b c d : Char) : Option Nat :=
  if a.isDigit ∧ b.isDigit ∧ c.isDigit ∧ d.isDigit then
    some ((((a.toNat - 48) * 10 + (b.toNat - 48)) * 10 + (c.toNat - 48)) * 10
      + (d.toNat - 48))
  else none

/-- Model of `new Date(s)` restricted to the ISO-like
`YYYY-MM-DDTHH:MM:SS` shape the loader's normalization produces: any
other shape, or out-of-range calendar/clock fields, is an invalid date
(`none`, modelling `NaN` from `getTime()`). -/
def jsDateParse (s : String) : Option JsDateTime :=
  match s.data with
  | [y1, y2, y3, y4, '-', m1, m2, '-', d1, d2, 'T',
     h1, h2, ':', mi1, mi2, ':', s1, s2] =>
    match digits4 y1 y2 y3 y4, digits2 m1 m2, digits2 d1 d2,
        digits2 h1 h2, digits2 mi1 mi2, digits2 s1 s2 with
    | some y, some mo, some da, some ho, some mi, some se =>
      if 1 ≤ mo ∧ mo ≤ 12 ∧ 1 ≤ da ∧ da ≤ daysInMonth y mo ∧ ho ≤ 23
          ∧ mi ≤ 59 ∧ se ≤ 59 then
        some ⟨y, mo, da, ho, mi, se⟩
      else none
    | _, _, _, _, _, _ => none
  | _ => none

/-- Model of `Date.prototype.toISOString()` on a UTC host. -/
def isoString (d : JsDateTime) : String :=
  String.mk (padStartL 4 '0' (natDigits d.year) ++ "-".data
    ++ padStartL 2 '0' (natDigits d.month) ++ "-".data
    ++ padStartL 2 '0' (natDigits d.day) ++ "T".data
    ++ padStartL 2 '0' (natDigits d.hour) ++ ":".data
    ++ padStartL 2 '0' (natDigits d.minute) ++ ":".data
    ++ padStartL 2 '0' (natDigits d.second) ++ ".000Z".data)

/-- The stored `timestamp_created` after the loader's handling: the raw
field is destructured off the item and re-added only when it is truthy
and its normalized form parses to a valid date; otherwise it stays
absent. -/
def processTimestamp (ts : Option String) : Option String :=
  match ts with
  | none => none
  | some s =>
    if s ≠ "" then
      match jsDateParse (normalizeTs s) with
      | some d => some (isoString d)
      | none => none
    else none

/-- Characters admitted by the MIME-type group of
`/^data:([A-Za-z-+\/]+);base64,(.+)$/`. -/
def dataUriTypeChar (c : Char) : Bool :=
  c.isAlpha || decide (c = '-') || decide (c = '+') || decide (c = '/')

/-- The data-URI regex match, returning the MIME type and base64 payload
groups when the value matches. -/
def matchDataUri (s : String) : Option (String × String) :=
  if ("data:".data).isPrefixOf s.data then
    let rest := s.data.drop 5
    let ty := rest.takeWhile dataUriTypeChar
    let rest2 := rest.drop ty.length
    if ty ≠ [] ∧ (";base64,".data).isPrefixOf rest2 then
      let payload := rest2.drop 8
      if payload ≠ [] then some (String.mk ty, String.mk payload) else none
    else none
  else none

/-- A seed item as the loader sees it after the envelope `_sync_id` is
stripped. `id` 0 models a missing/falsy id; the asset fields and
`ipfs_character` are strings or absent; descriptive fields copied
verbatim are irrelevant to the claims and omitted. -/
structure SeedItem where
  id : Nat
  timestamp_created : Option String
  thumbnail : Option String
  thumbnail_background : Option String
  thumbnail_character : Option String
  ipfs_character : Option String
deriving DecidableEq

/-- JavaScript truthiness of an optional string field. -/
def truthy : Option String → Bool
  | none => false
  | some s => decide (s ≠ "")

/-- Environment of one seed run: whether `FilesService && folderId` made
asset processing active, whether `Buffer.from` raises on a payload, the
outcome of `uploadOne` by filename (`none` = failed upload, caught inside
`uploadImage` which then returns null), the character fetch outcome by
hash (`none` = null response, `some ok`), and fault injection for the
existence query and `createOne`. -/
structure SeedEnv where
  filesEnabled : Bool
  decodeThrows : String → Bool
  uploadResult : String → Option String
  charFetchOk : String → Option Bool
  readThrows : Nat → Bool
  createThrows : SeedItem → Bool

/-- Run state: the item store rows plus the three counters. -/
structure SeedState where
  store : List SeedItem
  inserted : Nat
  skipped : Nat
  errors : Nat
deriving DecidableEq

/-- One inline data-URI image field (`thumbnail` /
`thumbnail_background`). When the regex matches, a throw from decoding
is caught and clears the field to null; a failed upload makes
`uploadImage` return null, and the `if (fileId)` guard then leaves the
field holding the raw data-URI; a successful upload replaces the field
with the file id; a non-matching value is left untouched. -/
def processInlineImage (env : SeedEnv) (field : Option String)
    (filename : String) : Option String :=
  match field with
  | none => none
  | some s =>
    if truthy (some s) && ("data:".data).isPrefixOf s.data then
      match matchDataUri s with
      | some (_, payload) =>
        if env.decodeThrows payload then none
        else
          match env.uploadResult filename with
          | some fid => some fid
          | none => some s
      | none => some s
    else some s

/-- The remote character image step: runs when `ipfs_character` is
truthy and `thumbnail_character` is not; a null or non-OK fetch, or a
failed upload, leaves the field as it was; all errors are caught
locally. -/
def processCharacter (env : SeedEnv) (item : SeedItem) : Option String :=
  match item.ipfs_character with
  | none => item.thumbnail_character
  | some hash =>
    if truthy (some hash) && !(truthy item.thumbnail_character) then
      match env.charFetchOk hash with
      | some true =>
        match env.uploadResult ("codex-" ++ natStr item.id ++ "-character.jpg") with
        | some fid => some fid
        | none => item.thumbnail_character
      | _ => item.thumbnail_character
    else item.thumbnail_character

/-- The asset migration applied to an item about to be inserted, active
only when the file store and folder are available. -/
def migrateAssets (env : SeedEnv) (item0 : SeedItem) : SeedItem :=
  if env.filesEnabled then
    let withThumbs : SeedItem :=
      { item0 with
        thumbnail := processInlineImage env item0.thumbnail
          ("codex-" ++ natStr item0.id ++ "-thumbnail.jpg"),
        thumbnail_background := processInlineImage env item0.thumbnail_background
          ("codex-" ++ natStr item0.id ++ "-background.jpg") }
    { withThumbs with thumbnail_character := processCharacter env withThumbs }
  else item0

/-- One item of the seed loop: strip the envelope fields, normalize the
timestamp, check existence by id when the id is truthy (a hit counts a
skip and changes nothing else), otherwise migrate assets and
`createOne`. The existence query and the insert have no local handler,
so a raised error escapes as `.error` carrying the run state unchanged. -/
def stepItem (env : SeedEnv) (st : SeedState) (item : SeedItem) :
    Except SeedState SeedState :=
  let item0 : SeedItem :=
    { item with timestamp_created := processTimestamp item.timestamp_created }
  if item.id ≠ 0 ∧ env.readThrows item.id then .error st
  else if item.id ≠ 0 ∧ st.store.any (fun r => decide (r.id = item.id)) then
    .ok { st with skipped := st.skipped + 1 }
  else
    let item1 := migrateAssets env item0
    if env.createThrows item1 then .error st
    else .ok { st with store := st.store ++ [item1], inserted := st.inserted + 1 }

/-- The item loop of one seed file: the first escaping error aborts. -/
def processItems (env : SeedEnv) : SeedState → List SeedItem →
    Except SeedState SeedState
  | st, [] => .ok st
  | st, item :: rest =>
    match stepItem env st item with
    | .ok st2 => processItems env st2 rest
    | .error st2 => .error st2

/-- One persisted seed file as the per-file try block sees it: reading
or `JSON.parse` threw (aborts the run), parsed but `data` is not an
array (counts an error and continues), or a valid list of items. -/
inductive SeedFile where
  | malformed
  | badFormat
  | good (items : List SeedItem)
deriving DecidableEq

/-- Total number of items across the parsed seed files. -/
def totalItemsOf : List SeedFile → Nat
  | [] => 0
  | .good items :: rest => items.length + totalItemsOf rest
  | .malformed :: rest => totalItemsOf rest
  | .badFormat :: rest => totalItemsOf rest

/-- The file loop: a bad-format file counts an error and continues; a
file whose read/parse throws, or whose item loop lets an error escape,
increments the error counter once and returns immediately — remaining
files are not attempted and the store keeps the inserts made so far. -/
def runFiles (env : SeedEnv) : SeedState → List SeedFile → SeedState
  | st, [] => st
  | st, f :: rest =>
    match f with
    | .malformed => { st with errors := st.errors + 1 }
    | .badFormat => runFiles env { st with errors := st.errors + 1 } rest
    | .good items =>
      match processItems env st items with
      | .ok st2 => runFiles env st2 rest
      | .error st2 => { st2 with errors := st2.errors + 1 }

/-- The seed hook run after its preconditions: the 10,001-limit count
probe treats a store of 10,000 or more rows as fully seeded and
returns without touching anything; otherwise every seed file is
processed in order. (The missing-collection/missing-directory
preconditions and the post-run thumbnail repair pass are outside the
claims and not modelled.) -/
def seedRun (env : SeedEnv) (store0 : List SeedItem)
    (files : List SeedFile) : SeedState :=
  let st0 : SeedState := { store := store0, inserted := 0, skipped := 0, errors := 0 }
  if 10000 ≤ store0.length then st0 else runFiles env st0 files

deriving instance DecidableEq for Except

theorem stepItem_skip (env : SeedEnv) (st : SeedState) (item : SeedItem)
    (hid : item.id ≠ 0) (hread : env.readThrows item.id = false)
    (hany : st.store.any (fun r => decide (r.id = item.id)) = true) :
    stepItem env st item = .ok { st with skipped := st.skipped + 1 } := by
  unfold stepItem
  rw [if_neg (by simp [hread]), if_pos ⟨hid, hany⟩]

theorem stepItem_insert (env : SeedEnv) (st : SeedState) (item : SeedItem)
    (hread : item.id ≠ 0 → env.readThrows item.id = false)
    (hany : item.id ≠ 0 → st.store.any (fun r => decide (r.id = item.id)) = false)
    (hcreate : ∀ it2, env.createThrows it2 = false) :
    stepItem env st item =
      .ok { st with
        store := st.store ++ [migrateAssets env
          { item with timestamp_created := processTimestamp item.timestamp_created }],
        inserted := st.inserted + 1 } := by
  have h1 : ¬(item.id ≠ 0 ∧ env.readThrows item.id = true) := fun h => by
    rw [hread h.1] at h
    exact Bool.false_ne_true h.2
  have h2 : ¬(item.id ≠ 0 ∧
      st.store.any (fun r => decide (r.id = item.id)) = true) := fun h => by
    rw [hany h.1] at h
    exact Bool.false_ne_true h.2
  simp only [stepItem]
  rw [if_neg h1, if_neg h2, if_neg (by rw [hcreate]; exact Bool.false_ne_true)]

theorem stepItem_error_state (env : SeedEnv) (st st2 : SeedState)
    (item : SeedItem) (h : stepItem env st item = .error st2) : st2 = st := by
  simp only [stepItem] at h
  split at h
  · cases h
    rfl
  · split at h
    · cases h
    · split at h
      · cases h
        rfl
      · cases h

theorem processItems_append (env : SeedEnv) (l1 l2 : List SeedItem) :
    ∀ st, processItems env st (l1 ++ l2) =
      match processItems env st l1 with
      | .ok st2 => processItems env st2 l2
      | .error st2 => .error st2 := by
  induction l1 with
  | nil => intro st; simp [processItems]
  | cons item rest ih =>
    intro st
    rw [List.cons_append]
    cases hstep : stepItem env st item with
    | ok st2 =>
      simp only [processItems, hstep]
      exact ih st2
    | error st2 =>
      simp only [processItems, hstep]

theorem processItems_all_skip (env : SeedEnv)
    (hread : ∀ id, env.readThrows id = false) :
    ∀ items st,
      (∀ it ∈ items, it.id ≠ 0 ∧
        st.store.any (fun r => decide (r.id = it.id)) = true) →
      processItems env st items = .ok { st with skipped := st.skipped + items.length } := by
  intro items
  induction items with
  | nil => intro st _; simp [processItems]
  | cons item rest ih =>
    intro st hall
    obtain ⟨hid, hany⟩ := hall item (List.mem_cons_self item rest)
    simp only [processItems, stepItem_skip env st item hid (hread item.id) hany]
    rw [ih { st with skipped := st.skipped + 1 }
      (fun it hit => hall it (List.mem_cons_of_mem item hit))]
    simp [List.length_cons]
    omega

theorem runFiles_all_skip (env : SeedEnv)
    (hread : ∀ id, env.readThrows id = false) :
    ∀ files st,
      (∀ f ∈ files, ∃ items, f = SeedFile.good items ∧
        ∀ it ∈ items, it.id ≠ 0 ∧
          st.store.any (fun r => decide (r.id = it.id)) = true) →
      runFiles env st files = { st with skipped := st.skipped + totalItemsOf files } := by
  intro files
  induction files with
  | nil => intro st _; simp [runFiles, totalItemsOf]
  | cons f rest ih =>
    intro st hall
    obtain ⟨items, rfl, hitems⟩ := hall f (List.mem_cons_self f rest)
    simp only [runFiles, processItems_all_skip env hread items st hitems]
    rw [ih { st with skipped := st.skipped + items.length }
      (fun f2 hf2 => hall f2 (List.mem_cons_of_mem _ hf2))]
    rw [totalItemsOf]
    simp
    omega

/-- Claim C1, corrected: for every item whose (truthy) id already has a
matching record in the item store, the loader increments its skipped
count and performs no create or update for that id (the returned state
changes only the skipped counter); consequently a second run over the
same seed directory against a store already containing every id calls
createOne zero times (inserted-count 0) and counts every present id as
skipped — PROVIDED the store holds fewer than 10,000 rows: a store of
10,000 or more rows is short-circuited by the count probe, which
returns with zero inserts but also a skipped count of 0 rather than the
universe size (see `C1_seed_idempotence_counterexample`). -/
theorem C1_seed_idempotence :
    (∀ env st item, item.id ≠ 0 → env.readThrows item.id = false →
      st.store.any (fun r => decide (r.id = item.id)) = true →
      stepItem env st item = .ok { st with skipped := st.skipped + 1 }) ∧
    (∀ env store0 files, store0.length < 10000 →
      (∀ id, env.readThrows id = false) →
      (∀ f ∈ files, ∃ items, f = SeedFile.good items ∧
        ∀ it ∈ items, it.id ≠ 0 ∧
          store0.any (fun r => decide (r.id = it.id)) = true) →
      seedRun env store0 files =
        { store := store0, inserted := 0, skipped := totalItemsOf files,
          errors := 0 }) := by
  constructor
  · intro env st item hid hread hany
    exact stepItem_skip env st item hid hread hany
  · intro env store0 files hlen hread hall
    unfold seedRun
    rw [if_neg (by omega)]
    rw [runFiles_all_skip env hread files
      { store := store0, inserted := 0, skipped := 0, errors := 0 } hall]
    simp

/-- A benign seed environment: no fault injection, file store off. -/
def cSeedEnvOK : SeedEnv :=
  ⟨false, fun _ => false, fun _ => none, fun _ => none,
   fun _ => false, fun _ => false⟩

/-- A seed item with id 1 and no other fields. -/
def cItem1 : SeedItem := ⟨1, none, none, none, none, none⟩

/-- A seed item with id 2 and no other fields. -/
def cItem2 : SeedItem := ⟨2, none, none, none, none, none⟩

/-- A seed item with id 3 and no other fields. -/
def cItem3 : SeedItem := ⟨3, none, none, none, none, none⟩

/-- Witness for C1: a store already holding ids 1 and 2 (fewer than
10,000 rows) makes a run over a seed file with those two items skip
both, insert nothing and report no errors; the per-item clause yields
exactly one extra skip. -/
theorem C1_seed_idempotence_witness :
    stepItem cSeedEnvOK ⟨[cItem1, cItem2], 0, 0, 0⟩ cItem1
      = .ok ⟨[cItem1, cItem2], 0, 1, 0⟩ ∧
    seedRun cSeedEnvOK [cItem1, cItem2] [SeedFile.good [cItem1, cItem2]]
      = ⟨[cItem1, cItem2], 0, 2, 0⟩ := by
  constructor
  · have h := C1_seed_idempotence.1 cSeedEnvOK ⟨[cItem1, cItem2], 0, 0, 0⟩ cItem1
      (by decide) rfl (by decide)
    rw [h]
  · have h := C1_seed_idempotence.2 cSeedEnvOK [cItem1, cItem2]
      [SeedFile.good [cItem1, cItem2]] (by decide) (fun _ => rfl)
      (by
        intro f hf
        refine ⟨[cItem1, cItem2], ?_, ?_⟩
        · rcases List.mem_cons.mp hf with rfl | h2
          · rfl
          · cases h2
        · intro it hit
          rcases List.mem_cons.mp hit with rfl | h2
          · exact ⟨by decide, by decide⟩
          · rcases List.mem_cons.mp h2 with rfl | h3
            · exact ⟨by decide, by decide⟩
            · cases h3)
    rw [h]
    decide

/-- A store of 10,000 rows with ids 1..10000, which is also exactly the
item list of the (already fully loaded) seed files. -/
def cBigItems : List SeedItem :=
  (List.range 10000).map (fun i => ⟨i + 1, none, none, none, none, none⟩)

/-- The item store after a completed first run: the same 10,000 rows. -/
def cBigStore : List SeedItem := cBigItems

set_option maxRecDepth 100000 in
/-- Counterexample to claim C1 as stated: a second run over a seed
directory of 10,000 items, against a store that is exactly those 10,000
records (so every id is present), reports inserted-count 0 but
skipped-count 0, not 10,000 — the count probe short-circuits the run
before any id is counted as skipped. -/
theorem C1_seed_idempotence_counterexample :
    cBigStore = cBigItems ∧
    cBigItems.length = 10000 ∧
    (seedRun cSeedEnvOK cBigStore [SeedFile.good cBigItems]).inserted = 0 ∧
    (seedRun cSeedEnvOK cBigStore [SeedFile.good cBigItems]).skipped = 0 := by
  have hlen : cBigStore.length = 10000 := by
    simp [cBigStore, cBigItems]
  refine ⟨rfl, by simp [cBigItems], ?_, ?_⟩
  · simp [seedRun, hlen]
  · simp [seedRun, hlen]

/-- Claim C10 (implicit): the seed loader's item loop has no per-item
exception handler, so an exception raised while processing a single
item (a failed existence query or a failed createOne) propagates to the
per-file catch and terminates the entire run immediately: the error
counter is incremented once on top of the accumulated counts, the state
at the throw equals the accumulated state (already-inserted items are
retained), and the result does not depend on the remaining items of the
file or the remaining files, which are never attempted. -/
theorem C10_item_exception_aborts :
    ∀ env st itemsBefore bad itemsAfter rest st1 st2,
      processItems env st itemsBefore = .ok st1 →
      stepItem env st1 bad = .error st2 →
      runFiles env st (SeedFile.good (itemsBefore ++ bad :: itemsAfter) :: rest)
          = { st1 with errors := st1.errors + 1 } ∧
      st2 = st1 := by
  intro env st itemsBefore bad itemsAfter rest st1 st2 hpre hbad
  have hst : st2 = st1 := stepItem_error_state env st1 st2 bad hbad
  subst hst
  refine ⟨?_, rfl⟩
  have hitems : processItems env st (itemsBefore ++ bad :: itemsAfter)
      = .error st2 := by
    rw [processItems_append env itemsBefore (bad :: itemsAfter) st, hpre]
    simp only [processItems, hbad]
  simp only [runFiles, hitems]

/-- Seed environment whose createOne raises exactly on the item with
id 2. -/
def cSeedEnvThrow : SeedEnv :=
  ⟨false, fun _ => false, fun _ => none, fun _ => none,
   fun _ => false, fun it => decide (it.id = 2)⟩

/-- Witness for C10: with items 1, 2, 3 in one file and another file
after it, the createOne failure on item 2 stops the run with item 1
inserted, one error counted, and neither item 3 nor the second file
processed. -/
theorem C10_item_exception_aborts_witness :
    runFiles cSeedEnvThrow ⟨[], 0, 0, 0⟩
        (SeedFile.good ([cItem1] ++ cItem2 :: [cItem3])
          :: [SeedFile.good [cItem3]])
      = ⟨[cItem1], 1, 0, 1⟩ := by
  have h := C10_item_exception_aborts cSeedEnvThrow ⟨[], 0, 0, 0⟩
    [cItem1] cItem2 [cItem3] [SeedFile.good [cItem3]]
    ⟨[cItem1], 1, 0, 0⟩ ⟨[cItem1], 1, 0, 0⟩ (by decide) (by decide)
  rw [h.1]

theorem migrateAssets_timestamp (env : SeedEnv) (it : SeedItem) :
    (migrateAssets env it).timestamp_created = it.timestamp_created := by
  unfold migrateAssets
  split
  · rfl
  · rfl

/-- Claim C3, corrected: for an item being inserted whose inline
`thumbnail` or `thumbnail_background` is a matching data-URI string, a
THROW from base64 decoding clears the field to absent, but a FAILED
UPLOAD (uploadOne rejecting, so uploadImage returns null) leaves the
field holding the raw embedded blob rather than clearing it (see
`C3_asset_failure_counterexample`); in both cases the item is still
inserted and the run's error counter is not incremented. Both inline
fields go through the same `processInlineImage` step. -/
theorem C3_asset_failure_isolation :
    (∀ env s ty payload fn,
      matchDataUri s = some (ty, payload) → s ≠ "" →
      ("data:".data).isPrefixOf s.data = true →
      env.decodeThrows payload = true →
      processInlineImage env (some s) fn = none) ∧
    (∀ env s ty payload fn,
      matchDataUri s = some (ty, payload) → s ≠ "" →
      ("data:".data).isPrefixOf s.data = true →
      env.decodeThrows payload = false →
      env.uploadResult fn = none →
      processInlineImage env (some s) fn = some s) ∧
    (∀ env st item,
      (item.id ≠ 0 → env.readThrows item.id = false) →
      (item.id ≠ 0 → st.store.any (fun r => decide (r.id = item.id)) = false) →
      (∀ it2, env.createThrows it2 = false) →
      stepItem env st item =
        .ok { st with
          store := st.store ++ [migrateAssets env
            { item with
              timestamp_created := processTimestamp item.timestamp_created }],
          inserted := st.inserted + 1 }) := by
  refine ⟨?_, ?_, ?_⟩
  · intro env s ty payload fn hmatch hs hpre hdec
    simp [processInlineImage, truthy, hs, hpre, hmatch, hdec]
  · intro env s ty payload fn hmatch hs hpre hdec hup
    simp [processInlineImage, truthy, hs, hpre, hmatch, hdec, hup]
  · intro env st item hread hany hcreate
    exact stepItem_insert env st item hread hany hcreate

/-- A seed item carrying an inline base64 thumbnail. -/
def cItemBlob : SeedItem :=
  ⟨1, none, some "data:image/png;base64,AAAA", none, none, none⟩

/-- Seed environment with asset processing active whose uploads always
fail (uploadOne rejects; uploadImage returns null). -/
def cSeedEnvUploadFail : SeedEnv :=
  ⟨true, fun _ => false, fun _ => none, fun _ => none,
   fun _ => false, fun _ => false⟩

/-- Seed environment with asset processing active whose base64 decode
always throws. -/
def cSeedEnvDecodeThrow : SeedEnv :=
  ⟨true, fun _ => true, fun _ => none, fun _ => none,
   fun _ => false, fun _ => false⟩

/-- Witness for C3: a throwing decode clears the thumbnail and the item
is still inserted with zero errors; a failing upload yields the raw
blob back from the asset step. -/
theorem C3_asset_failure_isolation_witness :
    processInlineImage cSeedEnvDecodeThrow (some "data:image/png;base64,AAAA")
      "codex-1-thumbnail.jpg" = none ∧
    processInlineImage cSeedEnvUploadFail (some "data:image/png;base64,AAAA")
      "codex-1-thumbnail.jpg" = some "data:image/png;base64,AAAA" ∧
    stepItem cSeedEnvDecodeThrow ⟨[], 0, 0, 0⟩ cItemBlob
      = .ok ⟨[⟨1, none, none, none, none, none⟩], 1, 0, 0⟩ := by
  refine ⟨?_, ?_, ?_⟩
  · exact C3_asset_failure_isolation.1 cSeedEnvDecodeThrow
      "data:image/png;base64,AAAA" "image/png" "AAAA" "codex-1-thumbnail.jpg"
      (by decide) (by decide) (by decide) rfl
  · exact C3_asset_failure_isolation.2.1 cSeedEnvUploadFail
      "data:image/png;base64,AAAA" "image/png" "AAAA" "codex-1-thumbnail.jpg"
      (by decide) (by decide) (by decide) rfl rfl
  · have h := C3_asset_failure_isolation.2.2 cSeedEnvDecodeThrow ⟨[], 0, 0, 0⟩
      cItemBlob (fun _ => rfl) (fun _ => by decide) (fun _ => rfl)
    rw [h]
    decide

/-- Counterexample to claim C3 as stated: with every upload failing, the
item with an inline data-URI thumbnail is inserted with the field STILL
HOLDING the raw embedded blob (not cleared to absent); inserted-count 1
and error-count 0. -/
theorem C3_asset_failure_isolation_counterexample :
    stepItem cSeedEnvUploadFail ⟨[], 0, 0, 0⟩ cItemBlob
      = .ok ⟨[cItemBlob], 1, 0, 0⟩ ∧
    cItemBlob.thumbnail = some "data:image/png;base64,AAAA" :=
  ⟨by decide, rfl⟩

/-- Claim C7: timestamp normalization in the seed loader. The input
"2025-10-11 16:46:41 EDT" is normalized (zone token removed, date and
time joined by T) and reparsed into a valid timestamp that is stored on
the inserted item in ISO form; every input whose normalized form does
not parse to a valid date leaves `timestamp_created` absent on the
inserted item — the item is still inserted, nothing is defaulted and no
error is raised. (`jsDateParse` models the host `new Date` parser on
the ISO-like shapes the normalization produces, for a UTC host.) -/
theorem C7_timestamp_normalization :
    normalizeTs "2025-10-11 16:46:41 EDT" = "2025-10-11T16:46:41" ∧
    jsDateParse "2025-10-11T16:46:41" = some ⟨2025, 10, 11, 16, 46, 41⟩ ∧
    processTimestamp (some "2025-10-11 16:46:41 EDT")
      = some (isoString ⟨2025, 10, 11, 16, 46, 41⟩) ∧
    (∀ s, jsDateParse (normalizeTs s) = none →
      processTimestamp (some s) = none) ∧
    (∀ env it, (migrateAssets env it).timestamp_created = it.timestamp_created) ∧
    (∀ env st item s,
      item.timestamp_created = some s →
      jsDateParse (normalizeTs s) = none →
      (item.id ≠ 0 → env.readThrows item.id = false) →
      (item.id ≠ 0 → st.store.any (fun r => decide (r.id = item.id)) = false) →
      (∀ it2, env.createThrows it2 = false) →
      stepItem env st item =
        .ok { st with
          store := st.store ++ [migrateAssets env
            { item with timestamp_created := none }],
          inserted := st.inserted + 1 }) := by
  refine ⟨by decide, by decide, by decide, ?_, migrateAssets_timestamp, ?_⟩
  · intro s h
    by_cases hs : s = "" <;> simp [processTimestamp, hs, h]
  · intro env st item s hts hparse hread hany hcreate
    have hpt : processTimestamp item.timestamp_created = none := by
      rw [hts]
      by_cases hs : s = "" <;> simp [processTimestamp, hs, hparse]
    rw [stepItem_insert env st item hread hany hcreate, hpt]

/-- Witness for C7's quantified clauses: the unparseable inputs
"garbage" and "not a date" leave the stored field absent while the item
is inserted. -/
theorem C7_timestamp_normalization_witness :
    processTimestamp (some "garbage") = none ∧
    stepItem cSeedEnvOK ⟨[], 0, 0, 0⟩ ⟨4, some "not a date", none, none, none, none⟩
      = .ok ⟨[⟨4, none, none, none, none, none⟩], 1, 0, 0⟩ := by
  constructor
  · exact C7_timestamp_normalization.2.2.2.1 "garbage" (by decide)
  · have h := C7_timestamp_normalization.2.2.2.2.2 cSeedEnvOK ⟨[], 0, 0, 0⟩
      ⟨4, some "not a date", none, none, none, none⟩ "not a date" rfl
      (by decide) (fun _ => rfl) (fun _ => rfl) (fun _ => rfl)
    rw [h]
    decide
